import Mathlib

/-!
# Verification of the `bevy_tilemap` core (`src/map.rs`, `src/tile.rs`)

A shallow embedding of the tile/chunk/map core of the repository.  Machine
floats (`f32`) only ever carry small integral or dyadic-rational values in the
claims checked here, so coordinates and colors are modelled as rationals `ℚ`
(exact for every operation the code performs at the inputs considered); byte
buffers are lists of naturals; Rust panics (`unwrap`, out-of-range indexing)
are modelled as `Option.none`; `Result` is modelled as `Except`.

Items whose defining module is not part of `src/` (`coord.rs`,
`dimensions.rs`, `chunk.rs`, and the host engine's event type) are modelled
from the specification and are marked `Modelled from the spec:` in their doc
comments.
-/

/-- RGBA color (bevy `Color`); the four channels are modelled as rationals. -/
structure Color where
  r : ℚ
  g : ℚ
  b : ℚ
  a : ℚ
deriving DecidableEq

/-- Embedding of `Color::WHITE`, the identity tint. -/
def Color.WHITE : Color := ⟨1, 1, 1, 1⟩

/-- Embedding of `Color` to `[f32; 4]` conversion used by the attribute exports. -/
def Color.into (c : Color) : List ℚ := [c.r, c.g, c.b, c.a]

/-- Embedding of `Tile` from `src/tile.rs`: point, z-order, sprite index, tint and the two
flip booleans. -/
structure Tile where
  point : ℤ × ℤ
  z_order : ℕ
  sprite_index : ℕ
  tint : Color
  is_horizontally_flipped : Bool
  is_vertically_flipped : Bool
deriving DecidableEq

/-- Embedding of `RawTile` from `src/tile.rs`: compact form with bit-packed flags. -/
structure RawTile where
  index : ℕ
  color : Color
  flags : ℕ
deriving DecidableEq

/-- Embedding of `impl From<Tile> for RawTile` (`src/tile.rs:18-34`): starts with
`flags = 0`, adds `1` when horizontally flipped and `1 << 1` when vertically
flipped, and copies `sprite_index` and `tint`. -/
def RawTile.fromTile (tile : Tile) : RawTile :=
  let flags : ℕ := 0
  let flags := if tile.is_horizontally_flipped then flags + 1 else flags
  let flags := if tile.is_vertically_flipped then flags + 2 ^ 1 else flags
  { index := tile.sprite_index
    color := tile.tint
    flags := flags }

/-- Embedding of `sparse_tiles_to_attributes` (`src/tile.rs:253-272`): pre-fills three
`area * 4` buffers (indexes `0.`, flags `0`, colors fully transparent), then
for each `(index, tile)` entry writes the tile's sprite index and color at the
four positions `index * 4 + i` — mirroring the source, the flags buffer is
never written inside the loop.  The source iterates a `HashMap`; the entries
here come as a list (distinct entries write disjoint positions, so order is
immaterial).  `get_mut` on an out-of-range position is a skip, matching
`List.set`'s out-of-range no-op. -/
def sparse_tiles_to_attributes (area : ℕ) (tiles : List (ℕ × RawTile)) :
    List ℚ × List ℕ × List (List ℚ) :=
  let tile_indexes : List ℚ := List.replicate (area * 4) 0
  let tile_flags : List ℕ := List.replicate (area * 4) 0
  let tile_colors : List (List ℚ) := List.replicate (area * 4) [0, 0, 0, 0]
  let res := tiles.foldl
    (fun (acc : List ℚ × List (List ℚ)) it =>
      (List.range 4).foldl
        (fun (acc2 : List ℚ × List (List ℚ)) i =>
          (acc2.1.set (it.1 * 4 + i) ((it.2.index : ℚ)),
           acc2.2.set (it.1 * 4 + i) it.2.color.into))
        acc)
    (tile_indexes, tile_colors)
  (res.1, tile_flags, res.2)

/-- Embedding of `dense_tiles_to_attributes` (`src/tile.rs:238-249`): replicates each
tile's index, flags and color four times, in order. -/
def dense_tiles_to_attributes (tiles : List RawTile) :
    List ℚ × List ℕ × List (List ℚ) :=
  let step := fun (acc : List ℚ × List ℕ × List (List ℚ)) (tile : RawTile) =>
    (acc.1 ++ List.replicate 4 ((tile.index : ℚ)),
     acc.2.1 ++ List.replicate 4 tile.flags,
     acc.2.2 ++ List.replicate 4 tile.color.into)
  tiles.foldl step ([], [], [])

/-- C9: converting a `Tile` to a `RawTile` copies `sprite_index` into `index`
and `tint` into `color`, and packs the flip booleans into `flags` with bit 0
set exactly when horizontally flipped and bit 1 exactly when vertically
flipped (so horizontal-only gives `0b01`, both give `0b11`, neither gives 0). -/
theorem rawTile_from_tile_flags (t : Tile) :
    (RawTile.fromTile t).index = t.sprite_index ∧
    (RawTile.fromTile t).color = t.tint ∧
    (RawTile.fromTile t).flags =
      (if t.is_horizontally_flipped then 1 else 0) +
      (if t.is_vertically_flipped then 2 else 0) ∧
    (RawTile.fromTile t).flags.testBit 0 = t.is_horizontally_flipped ∧
    (RawTile.fromTile t).flags.testBit 1 = t.is_vertically_flipped := by
  rcases t with ⟨p, z, si, ti, hf, vf⟩
  cases hf <;> cases vf
  · exact ⟨rfl, rfl, by simp [RawTile.fromTile],
      show Nat.testBit 0 0 = false by decide, show Nat.testBit 0 1 = false by decide⟩
  · exact ⟨rfl, rfl, by simp [RawTile.fromTile],
      show Nat.testBit 2 0 = false by decide, show Nat.testBit 2 1 = true by decide⟩
  · exact ⟨rfl, rfl, by simp [RawTile.fromTile],
      show Nat.testBit 1 0 = true by decide, show Nat.testBit 1 1 = false by decide⟩
  · exact ⟨rfl, rfl, by simp [RawTile.fromTile],
      show Nat.testBit 3 0 = true by decide, show Nat.testBit 3 1 = true by decide⟩

/-- C8 (code bug): at the failing input `area = 1`,
`tiles = [(0, RawTile {index 5, flags 3, color red})]`, the sparse export
leaves the flags buffer at its zero fill (the loop never writes it), while the
index and color buffers do receive the tile's data replicated four times. -/
theorem sparse_tiles_to_attributes_flags_bug :
    (sparse_tiles_to_attributes 1 [(0, ⟨5, ⟨1, 0, 0, 1⟩, 3⟩)]).2.1 = [0, 0, 0, 0] ∧
    [0, 0, 0, 0] ≠ [3, 3, 3, 3] ∧
    (sparse_tiles_to_attributes 1 [(0, ⟨5, ⟨1, 0, 0, 1⟩, 3⟩)]).1 = [5, 5, 5, 5] ∧
    (sparse_tiles_to_attributes 1 [(0, ⟨5, ⟨1, 0, 0, 1⟩, 3⟩)]).2.2 =
      [[1, 0, 0, 1], [1, 0, 0, 1], [1, 0, 0, 1], [1, 0, 0, 1]] := by
  refine ⟨rfl, by decide, ?_, ?_⟩ <;> decide

/-! ## Texture compositor (`set_tiles` free function, `src/map.rs:403-439`) -/

/-- One iteration of the compositor's row loop: destination byte offset
`begin`, source byte offset `sprite_begin`, and the number of copied bytes. -/
structure RowCopy where
  db : ℕ
  sb : ℕ
  len : ℕ
deriving DecidableEq

/-- Embedding of `dest[db..db+len].copy_from_slice(&src[sb..sb+len])`, byte by byte.
`copy_from_slice` panics when a range exceeds its buffer; here an out-of-range
destination write is dropped (`List.set` no-op) and a missing source byte
reads 0, which leaves the in-bounds behaviour unchanged. -/
def copyRange (dest src : List ℕ) (db sb len : ℕ) : List ℕ :=
  (List.range len).foldl (fun d i => d.set (db + i) (src.getD (sb + i) 0)) dest

/-- The compositor's `for bound_y in rect_y..rect_y + rect_height` loop: each
row performs one `copy_from_slice`. -/
def blitRows (src : List ℕ) : List RowCopy → List ℕ → List ℕ
  | [], d => d
  | r :: rs, d => blitRows src rs (copyRange d src r.db r.sb r.len)

/-- The free function `set_tiles` of `src/map.rs:403-439`: when the tile has
no sprite-sheet texture (`tile.texture()` is `None`, modelled by
`sprite_lookup = none`) the call is a no-op; otherwise for every row `r` in
`[0, rect_height)` it copies `rect_width * chunk_format_size` bytes from the
sprite sheet at `((sprite_y + r) * sheet_width + sprite_x) * format_size` to
the chunk buffer at `((rect_y + r) * map_texture_size + rect_x) *
chunk_format_size` (the source's `format_size` and `chunk_format_size` are
the same value, both read from the chunk texture's format). -/
def set_tiles_texture (sprite_lookup : Option ℕ)
    (chunk_data sprite_sheet_data : List ℕ)
    (map_texture_size chunk_format_size sheet_width : ℕ)
    (rect_x rect_y rect_width rect_height sprite_x sprite_y : ℕ) : List ℕ :=
  match sprite_lookup with
  | none => chunk_data
  | some _ =>
    blitRows sprite_sheet_data
      ((List.range rect_height).map fun r =>
        ⟨((rect_y + r) * map_texture_size + rect_x) * chunk_format_size,
         ((sprite_y + r) * sheet_width + sprite_x) * chunk_format_size,
         rect_width * chunk_format_size⟩)
      chunk_data

lemma copyRange_length (dest src : List ℕ) (db sb len : ℕ) :
    (copyRange dest src db sb len).length = dest.length := by
  unfold copyRange
  generalize List.range len = l
  induction l generalizing dest with
  | nil => rfl
  | cons i t ih => rw [List.foldl_cons, ih, List.length_set]

lemma copyRange_succ (d s : List ℕ) (db sb len : ℕ) :
    copyRange d s db sb (len + 1) =
      (copyRange d s db sb len).set (db + len) (s.getD (sb + len) 0) := by
  unfold copyRange
  rw [List.range_succ, List.foldl_append]
  rfl

lemma copyRange_getD (d s : List ℕ) (db sb len p : ℕ) :
    (copyRange d s db sb len).getD p 0 =
      if db ≤ p ∧ p < db + len ∧ p < d.length then s.getD (sb + (p - db)) 0
      else d.getD p 0 := by
  induction len with
  | zero =>
    simp only [copyRange, List.range_zero, List.foldl_nil]
    rw [if_neg (show ¬(db ≤ p ∧ p < db + 0 ∧ p < d.length) by omega)]
  | succ n ih =>
    rw [copyRange_succ, List.getD_eq_getElem?_getD, List.getElem?_set, copyRange_length]
    by_cases hp : db + n = p
    · subst hp
      by_cases hl : db + n < d.length
      · rw [if_pos rfl, if_pos hl,
          if_pos (show db ≤ db + n ∧ db + n < db + (n + 1) ∧ db + n < d.length by omega)]
        have he : db + n - db = n := by omega
        rw [he]
        rfl
      · rw [if_pos rfl, if_neg hl,
          if_neg (show ¬(db ≤ db + n ∧ db + n < db + (n + 1) ∧ db + n < d.length) by omega),
          List.getD_eq_getElem?_getD, List.getElem?_eq_none (by omega)]
    · rw [if_neg hp, ← List.getD_eq_getElem?_getD, ih]
      by_cases h3 : db ≤ p ∧ p < db + n ∧ p < d.length
      · rw [if_pos h3, if_pos (show db ≤ p ∧ p < db + (n + 1) ∧ p < d.length by omega)]
      · rw [if_neg h3, if_neg (show ¬(db ≤ p ∧ p < db + (n + 1) ∧ p < d.length) by omega)]

/-- The value the row list writes at byte position `p`, if any; later rows in
the loop take precedence. -/
def rowsVal (src : List ℕ) : List RowCopy → ℕ → Option ℕ
  | [], _ => none
  | r :: rs, p =>
    match rowsVal src rs p with
    | some v => some v
    | none =>
      if r.db ≤ p ∧ p < r.db + r.len then some (src.getD (r.sb + (p - r.db)) 0)
      else none

lemma blitRows_length (src : List ℕ) (rows : List RowCopy) (d : List ℕ) :
    (blitRows src rows d).length = d.length := by
  induction rows generalizing d with
  | nil => rfl
  | cons r rs ih => rw [blitRows, ih, copyRange_length]

lemma blitRows_getD (src : List ℕ) (rows : List RowCopy) (d : List ℕ) (p : ℕ)
    (hp : p < d.length) :
    (blitRows src rows d).getD p 0 =
      match rowsVal src rows p with
      | some v => v
      | none => d.getD p 0 := by
  induction rows generalizing d with
  | nil => rfl
  | cons r rs ih =>
    rw [blitRows, ih _ (by rw [copyRange_length]; exact hp), rowsVal]
    cases hrv : rowsVal src rs p with
    | some v => rfl
    | none =>
      simp only
      rw [copyRange_getD]
      by_cases hc : r.db ≤ p ∧ p < r.db + r.len
      · rw [if_pos ⟨hc.1, hc.2, hp⟩, if_pos hc]
      · rw [if_neg (show ¬(r.db ≤ p ∧ p < r.db + r.len ∧ p < d.length) by omega), if_neg hc]

lemma blitRows_idem (src : List ℕ) (rows : List RowCopy) (d : List ℕ) :
    blitRows src rows (blitRows src rows d) = blitRows src rows d := by
  apply List.ext_getElem
  · rw [blitRows_length, blitRows_length]
  · intro p h1 h2
    have hd : p < d.length := by
      rw [blitRows_length, blitRows_length] at h1
      exact h1
    have hb : p < (blitRows src rows d).length := by rwa [blitRows_length]
    rw [← List.getD_eq_getElem _ 0 h1, ← List.getD_eq_getElem _ 0 h2,
      blitRows_getD src rows _ p hb, blitRows_getD src rows d p hd]
    cases rowsVal src rows p with
    | some v => rfl
    | none => rfl

/-- C6: compositing is idempotent — running the compositor blit twice with
the same tile lookup, sprite-sheet buffer, rectangles and offsets leaves the
chunk buffer identical to running it once (bytes are copied verbatim from the
unchanged sprite sheet; nothing is blended or accumulated). -/
theorem set_tiles_texture_idempotent (sprite_lookup : Option ℕ)
    (chunk_data sprite_sheet_data : List ℕ)
    (map_texture_size chunk_format_size sheet_width : ℕ)
    (rect_x rect_y rect_width rect_height sprite_x sprite_y : ℕ) :
    set_tiles_texture sprite_lookup
        (set_tiles_texture sprite_lookup chunk_data sprite_sheet_data map_texture_size
          chunk_format_size sheet_width rect_x rect_y rect_width rect_height sprite_x sprite_y)
        sprite_sheet_data map_texture_size chunk_format_size sheet_width
        rect_x rect_y rect_width rect_height sprite_x sprite_y =
      set_tiles_texture sprite_lookup chunk_data sprite_sheet_data map_texture_size
        chunk_format_size sheet_width rect_x rect_y rect_width rect_height sprite_x sprite_y := by
  cases sprite_lookup with
  | none => rfl
  | some i => exact blitRows_idem ..

/-! ## Event log (spec §4.2; `src/map.rs` delegates to the host's `Events`
via `send_event` / `events_update` / `events_reader`, lines 376-386) -/

/-- Modelled from the spec: the host engine's double-buffered event log (the
`Events` type is not part of `src/`).  Two buffers, previous and current;
events carry consecutive ids, `next_id` being the id the next send uses. -/
structure EventsQ (α : Type) where
  prev : List (ℕ × α)
  curr : List (ℕ × α)
  next_id : ℕ
deriving DecidableEq

/-- Embedding of `send(event)`: appends to the current buffer. -/
def EventsQ.send {α : Type} (q : EventsQ α) (e : α) : EventsQ α :=
  { prev := q.prev, curr := q.curr ++ [(q.next_id, e)], next_id := q.next_id + 1 }

/-- Sends a list of events in order. -/
def EventsQ.sendAll {α : Type} (q : EventsQ α) (es : List α) : EventsQ α :=
  es.foldl EventsQ.send q

/-- Embedding of `update()`: moves the current buffer into the previous one (discarding
the old previous buffer) and starts a new empty current buffer. -/
def EventsQ.update {α : Type} (q : EventsQ α) : EventsQ α :=
  { prev := q.curr, curr := [], next_id := q.next_id }

/-- Modelled from the spec: a reader remembers the highest event id it has
consumed; `cursor` is that id plus one (zero when nothing was consumed),
i.e. the first unread id. -/
structure EvReader where
  cursor : ℕ
deriving DecidableEq

/-- The events a drain yields: all entries of the previous then the current
buffer with unread ids, in send order. -/
def EventsQ.drainEvs {α : Type} (q : EventsQ α) (r : EvReader) : List (ℕ × α) :=
  (q.prev ++ q.curr).filter (fun p => decide (r.cursor ≤ p.1))

/-- Draining a reader: yields the unread events and advances the cursor past
the last id seen. -/
def EventsQ.drain {α : Type} (q : EventsQ α) (r : EvReader) : List α × EvReader :=
  (((q.drainEvs r).map Prod.snd),
   ⟨((q.drainEvs r).map Prod.fst).foldl (fun c i => max c (i + 1)) r.cursor⟩)

/-- Every event id in the queue is below `next_id` (every operation keeps
this; a reader with `cursor = next_id` has therefore consumed everything). -/
def EventsQ.wf {α : Type} (q : EventsQ α) : Prop :=
  ∀ p ∈ q.prev ++ q.curr, p.1 < q.next_id

@[simp] lemma update_prev {α : Type} (q : EventsQ α) : q.update.prev = q.curr := rfl

@[simp] lemma update_curr {α : Type} (q : EventsQ α) : q.update.curr = [] := rfl

@[simp] lemma update_next_id {α : Type} (q : EventsQ α) : q.update.next_id = q.next_id := rfl

/-- The entries `sendAll` appends: the payloads tagged with consecutive ids. -/
def tagFrom {α : Type} (n : ℕ) : List α → List (ℕ × α)
  | [] => []
  | e :: es => (n, e) :: tagFrom (n + 1) es

lemma tagFrom_map_snd {α : Type} (n : ℕ) (es : List α) :
    (tagFrom n es).map Prod.snd = es := by
  induction es generalizing n with
  | nil => rfl
  | cons e t ih => rw [tagFrom, List.map_cons, ih]

lemma tagFrom_mem_ids {α : Type} (n : ℕ) (es : List α) :
    ∀ p ∈ tagFrom n es, n ≤ p.1 ∧ p.1 < n + es.length := by
  induction es generalizing n with
  | nil => intro p hp; exact absurd hp (List.not_mem_nil p)
  | cons e t ih =>
    intro p hp
    rcases List.mem_cons.mp hp with h | h
    · subst h
      exact ⟨le_refl n, by simp⟩
    · have h2 := ih (n + 1) p h
      exact ⟨by omega, by simpa [Nat.add_comm, Nat.add_left_comm] using by omega⟩

lemma filter_lt_nil {α : Type} (c : ℕ) (l : List (ℕ × α)) (h : ∀ p ∈ l, p.1 < c) :
    l.filter (fun p => decide (c ≤ p.1)) = [] := by
  induction l with
  | nil => rfl
  | cons a t ih =>
    have ha := h a (List.mem_cons_self a t)
    have hna : ¬(decide (c ≤ a.1) = true) := by
      simp only [decide_eq_true_eq]
      omega
    rw [List.filter_cons, if_neg hna, ih (fun p hp => h p (List.mem_cons_of_mem a hp))]

lemma filter_tagFrom {α : Type} (c n : ℕ) (es : List α) (h : c ≤ n) :
    (tagFrom n es).filter (fun p => decide (c ≤ p.1)) = tagFrom n es := by
  induction es generalizing n with
  | nil => rfl
  | cons e t ih =>
    have hc : decide (c ≤ ((n, e) : ℕ × α).1) = true := by
      simp only [decide_eq_true_eq]
      omega
    rw [tagFrom, List.filter_cons, if_pos hc, ih (n + 1) (by omega)]

lemma sendAll_spec {α : Type} (es : List α) (q : EventsQ α) :
    (q.sendAll es).prev = q.prev ∧
    (q.sendAll es).curr = q.curr ++ tagFrom q.next_id es ∧
    (q.sendAll es).next_id = q.next_id + es.length := by
  induction es generalizing q with
  | nil =>
    refine ⟨rfl, ?_, rfl⟩
    show q.curr = q.curr ++ tagFrom q.next_id []
    rw [tagFrom, List.append_nil]
  | cons e t ih =>
    obtain ⟨h1, h2, h3⟩ := ih (q.send e)
    refine ⟨h1, ?_, ?_⟩
    · show ((q.send e).sendAll t).curr = q.curr ++ tagFrom q.next_id (e :: t)
      rw [h2, tagFrom]
      show q.curr ++ [(q.next_id, e)] ++ tagFrom (q.next_id + 1) t =
        q.curr ++ ((q.next_id, e) :: tagFrom (q.next_id + 1) t)
      rw [List.append_assoc]
      rfl
    · show ((q.send e).sendAll t).next_id = q.next_id + (e :: t).length
      rw [h3]
      show q.next_id + 1 + t.length = q.next_id + (e :: t).length
      rw [List.length_cons]
      omega

/-- C3: for a reader that has consumed everything sent so far
(`cursor = next_id`), (a) sending `N` events, calling `update()` once and
draining yields exactly those `N` events in send order; (b) sending `es1`,
calling `update()`, sending `es2` and calling `update()` again with no drain
in between, a drain yields only `es2`, and (c) no event of the older
generation `es1` remains anywhere in the log, so it can never be delivered
— the older generation is lost. -/
theorem events_double_buffer {α : Type} (q : EventsQ α) (r : EvReader)
    (es es1 es2 : List α) (hwf : q.wf) (hr : r.cursor = q.next_id) :
    (((q.sendAll es).update).drain r).1 = es ∧
    (((((q.sendAll es1).update).sendAll es2).update).drain r).1 = es2 ∧
    ∀ p ∈ ((((q.sendAll es1).update).sendAll es2).update).prev ++
          ((((q.sendAll es1).update).sendAll es2).update).curr,
      ¬(q.next_id ≤ p.1 ∧ p.1 < q.next_id + es1.length) := by
  obtain ⟨hpA, hcA, hnA⟩ := sendAll_spec es q
  obtain ⟨hpB, hcB, hnB⟩ := sendAll_spec es1 q
  obtain ⟨hpC, hcC, hnC⟩ := sendAll_spec es2 ((q.sendAll es1).update)
  have h2' : (((q.sendAll es1).update).sendAll es2).curr =
      tagFrom (q.next_id + es1.length) es2 := by
    rw [hcC, update_curr, List.nil_append, update_next_id, hnB]
  refine ⟨?_, ?_, ?_⟩
  · show (((q.sendAll es).update).drainEvs r).map Prod.snd = es
    have hde : ((q.sendAll es).update).drainEvs r = tagFrom q.next_id es := by
      show (((q.sendAll es).update.prev ++ (q.sendAll es).update.curr).filter
        (fun p => decide (r.cursor ≤ p.1))) = tagFrom q.next_id es
      rw [update_prev, update_curr, List.append_nil, hcA, hr, List.filter_append,
        filter_lt_nil q.next_id q.curr
          (fun p hp => hwf p (List.mem_append.mpr (Or.inr hp))),
        filter_tagFrom q.next_id q.next_id es (le_refl _), List.nil_append]
    rw [hde, tagFrom_map_snd]
  · show (((((q.sendAll es1).update).sendAll es2).update).drainEvs r).map Prod.snd = es2
    have hde : ((((q.sendAll es1).update).sendAll es2).update).drainEvs r =
        tagFrom (q.next_id + es1.length) es2 := by
      show (((((q.sendAll es1).update).sendAll es2).update.prev ++
        (((q.sendAll es1).update).sendAll es2).update.curr).filter
          (fun p => decide (r.cursor ≤ p.1))) = _
      rw [update_prev, update_curr, List.append_nil, h2', hr]
      exact filter_tagFrom q.next_id (q.next_id + es1.length) es2 (by omega)
    rw [hde, tagFrom_map_snd]
  · intro p hp
    rw [update_prev, update_curr, List.append_nil, h2'] at hp
    have hid := tagFrom_mem_ids (q.next_id + es1.length) es2 p hp
    omega

/-- Witness for C3 at a concrete input: the empty log and a fresh reader,
sending `[10, 20, 30]` (or `[1, 2]` then `[7]`). -/
theorem events_double_buffer_witness :
    ((((⟨[], [], 0⟩ : EventsQ ℕ).sendAll [10, 20, 30]).update).drain ⟨0⟩).1 = [10, 20, 30] ∧
    ((((((⟨[], [], 0⟩ : EventsQ ℕ).sendAll [1, 2]).update).sendAll [7]).update).drain ⟨0⟩).1 = [7] := by
  have hwf : (⟨[], [], 0⟩ : EventsQ ℕ).wf := by
    intro p hp
    exact absurd hp (List.not_mem_nil p)
  have h1 := events_double_buffer (⟨[], [], 0⟩ : EventsQ ℕ) ⟨0⟩ [10, 20, 30] [1, 2] [7] hwf rfl
  exact ⟨h1.1, h1.2.1⟩

/-! ## Map store (`src/map.rs`) -/

/-- Embedding of `ErrorKind` (`src/map.rs:11-14`): the single error kind.  `MapError`
boxes it; the box is transparent here. -/
inductive ErrorKind where
  | OutOfBounds
deriving DecidableEq

deriving instance DecidableEq for Except

/-- Modelled from the spec: `TileSetter` (imported by `src/map.rs` but not
present in this snapshot's `src/tile.rs`): an ordered batch of
(3-D coordinate, tile) pairs; `push` appends and `iter` walks in insertion
order. -/
abbrev TileSetter := List ((ℚ × ℚ × ℚ) × Tile)

/-- Embedding of `MapEvent` (`src/map.rs:58-98`).  Chunk handles and entities are opaque
ids, following the arena reading of the design notes. -/
inductive MapEventM where
  | Created (index : ℕ) (handle : ℕ)
  | Refresh (handle : ℕ)
  | Modified (handle : ℕ) (setter : TileSetter)
  | Despawned (handle : ℕ) (entity : ℕ)
  | Removed (index : ℕ) (entity : ℕ)
deriving DecidableEq

/-- Embedding of `WorldMap` (`src/map.rs:312-322`): dimensions (in chunks — `Vec2` in the
source, always holding non-negative integers when used), the chunk-handle
array, the index-to-entity mapping and the event log.  The texture-atlas
handle carries no behaviour for the claims and is omitted. -/
structure WorldMapM where
  dimensions : ℕ × ℕ
  handles : List (Option ℕ)
  entities : List (ℕ × ℕ)
  events : EventsQ MapEventM
deriving DecidableEq

/-- Modelled from the spec: `to_index` (`coord.rs` is not in `src/`):
linearizes a chunk coordinate as `index = y * mx + x`. -/
def to_index (mx my x y : ℕ) : ℕ := y * mx + x

/-- Modelled from the spec: `check_index` (`dimensions.rs` is not in
`src/`): a map index is valid iff `index < mx * my`; an invalid index is
rejected with `OutOfBounds`. -/
def check_index (mx my index : ℕ) : Except ErrorKind Unit :=
  if index < mx * my then Except.ok () else Except.error ErrorKind.OutOfBounds

/-- Embedding of `WorldMap::get_chunk_handle` (`src/map.rs:348-350`):
`self.handles[index].as_ref()`.  The outer `Option` is the indexing panic
when `index` misses the handle array; the inner one is the slot itself. -/
def get_chunk_handle (m : WorldMapM) (index : ℕ) : Option (Option ℕ) :=
  m.handles[index]?

/-- Embedding of `WorldMap::contains_entity` (`src/map.rs:352-354`). -/
def contains_entity (m : WorldMapM) (index : ℕ) : Bool :=
  m.entities.any (fun p => p.1 = index)

/-- Embedding of `WorldMap::send_event` (`src/map.rs:376-378`). -/
def send_event (m : WorldMapM) (e : MapEventM) : WorldMapM :=
  { m with events := m.events.send e }

/-- Embedding of `TileMap::get_chunk` (`src/map.rs:194-202`): computes the flat index,
bounds-checks it (`check_index`, propagated by `?`), then resolves the
stored handle through the chunk-assets collaborator
(`assets : handle → chunk id?`); an empty slot yields success with no chunk.
The outer `none` is the `handles[index]` panic. -/
def TileMap.get_chunk (m : WorldMapM) (assets : ℕ → Option ℕ) (x y : ℕ) :
    Option (Except ErrorKind (Option ℕ)) :=
  let index := to_index m.dimensions.1 m.dimensions.2 x y
  match check_index m.dimensions.1 m.dimensions.2 index with
  | Except.error e => some (Except.error e)
  | Except.ok _ =>
    match get_chunk_handle m index with
    | none => none
    | some slot => some (Except.ok (slot.bind assets))

/-- Embedding of `TileMap::set_chunk` (`src/map.rs:172-188`): computes the flat index,
bounds-checks it, stores the chunk under the caller's handle in the assets
collaborator (which hands the same id back), and emits `Created` when no
entity exists at the index, else `Refresh`. -/
def TileMap.set_chunk (m : WorldMapM) (handle : ℕ) (x y : ℕ) :
    Except ErrorKind WorldMapM :=
  let index := to_index m.dimensions.1 m.dimensions.2 x y
  match check_index m.dimensions.1 m.dimensions.2 index with
  | Except.error e => Except.error e
  | Except.ok _ =>
    if contains_entity m index then
      Except.ok (send_event m (MapEventM.Refresh handle))
    else
      Except.ok (send_event m (MapEventM.Created index handle))

/-- Embedding of `WorldMap::new` (`src/map.rs:391-400`): computes
`size = (dimensions.x * dimensions.y) as usize` but creates the handle
array with `Vec::with_capacity(size)` — a vector of LENGTH 0 (capacity is
not length). -/
def WorldMap.new (dimensions : ℕ × ℕ) : WorldMapM :=
  { dimensions := dimensions
    handles := []
    entities := []
    events := ⟨[], [], 0⟩ }

/-- Embedding of `WorldMap::set_dimensions` (`src/map.rs:335-338`): reallocates the
handle array to `dimensions.x * dimensions.y` empty slots and stores the new
dimensions. -/
def TileMap.set_dimensions (m : WorldMapM) (d : ℕ × ℕ) : WorldMapM :=
  { m with handles := List.replicate (d.1 * d.2) none, dimensions := d }

/-- A 2-by-2 map whose four slots are all empty, with no pending events. -/
def demoMap22 : WorldMapM :=
  { dimensions := (2, 2)
    handles := [none, none, none, none]
    entities := []
    events := ⟨[], [], 0⟩ }

/-- C2 (amended): `set_chunk` and `get_chunk` reject with `OutOfBounds`
exactly when the linearized index `y * mx + x` reaches `mx * my` (so
`y ≥ my` always errors, but `x ≥ mx` with a small enough `y` wraps into a
later row and is accepted); with an in-range index whose slot is empty,
`get_chunk` returns success carrying no chunk. -/
theorem chunk_bounds_amended (m : WorldMapM) (assets : ℕ → Option ℕ) (handle x y : ℕ) :
    (TileMap.get_chunk m assets x y = some (Except.error ErrorKind.OutOfBounds) ↔
      m.dimensions.1 * m.dimensions.2 ≤ to_index m.dimensions.1 m.dimensions.2 x y) ∧
    (TileMap.set_chunk m handle x y = Except.error ErrorKind.OutOfBounds ↔
      m.dimensions.1 * m.dimensions.2 ≤ to_index m.dimensions.1 m.dimensions.2 x y) ∧
    (to_index m.dimensions.1 m.dimensions.2 x y < m.dimensions.1 * m.dimensions.2 →
      m.handles[to_index m.dimensions.1 m.dimensions.2 x y]? = some none →
      TileMap.get_chunk m assets x y = some (Except.ok none)) := by
  refine ⟨?_, ?_, ?_⟩
  · simp only [TileMap.get_chunk, check_index]
    by_cases hlt : to_index m.dimensions.1 m.dimensions.2 x y <
        m.dimensions.1 * m.dimensions.2
    · rw [if_pos hlt]
      simp only
      constructor
      · intro h
        cases hg : get_chunk_handle m (to_index m.dimensions.1 m.dimensions.2 x y) with
        | none => rw [hg] at h; exact absurd h (by simp)
        | some slot => rw [hg] at h; simp at h
      · intro h
        omega
    · rw [if_neg hlt]
      simp only
      constructor
      · intro _
        omega
      · intro _
        trivial
  · simp only [TileMap.set_chunk, check_index]
    by_cases hlt : to_index m.dimensions.1 m.dimensions.2 x y <
        m.dimensions.1 * m.dimensions.2
    · rw [if_pos hlt]
      simp only
      constructor
      · intro h
        by_cases hc : contains_entity m (to_index m.dimensions.1 m.dimensions.2 x y) = true
        · rw [if_pos hc] at h
          exact absurd h (by simp)
        · rw [if_neg hc] at h
          exact absurd h (by simp)
      · intro h
        omega
    · rw [if_neg hlt]
      simp only
      constructor
      · intro _
        omega
      · intro _
        trivial
  · intro hlt hslot
    simp only [TileMap.get_chunk, check_index]
    rw [if_pos hlt]
    simp only
    rw [show get_chunk_handle m (to_index m.dimensions.1 m.dimensions.2 x y) = some none
      from hslot]
    rfl

/-- Witness for C2's amended theorem: on the empty 2-by-2 map, coordinate
(1, 1) has index 3, in bounds with an empty slot, and `get_chunk` answers
"no chunk" without error. -/
theorem chunk_bounds_amended_witness :
    TileMap.get_chunk demoMap22 (fun _ => none) 1 1 = some (Except.ok none) ∧
    (TileMap.get_chunk demoMap22 (fun _ => none) 0 2 =
      some (Except.error ErrorKind.OutOfBounds)) := by
  constructor
  · exact (chunk_bounds_amended demoMap22 (fun _ => none) 0 1 1).2.2 (by decide) (by decide)
  · exact (chunk_bounds_amended demoMap22 (fun _ => none) 0 0 2).1.mpr (by decide)

/-- C2 counterexample: on a 2-by-2 map the coordinate (2, 0) has `x ≥ mx`,
yet `get_chunk` succeeds with "no chunk" and `set_chunk` does not error —
the linearized index `0 * 2 + 2 = 2` wraps inside `mx * my = 4`. -/
theorem chunk_bounds_counterexample :
    2 ≥ (2 : ℕ) ∧
    TileMap.get_chunk demoMap22 (fun _ => none) 2 0 = some (Except.ok none) ∧
    TileMap.set_chunk demoMap22 7 2 0 ≠ Except.error ErrorKind.OutOfBounds := by
  refine ⟨le_refl 2, ?_, ?_⟩ <;> decide

/-- C5 (code bug): `WorldMap::new` builds the handle array with
`Vec::with_capacity`, so a freshly constructed map of dimensions (2, 2) has
a handle array of length 0, not `dimensions.x * dimensions.y = 4`; the
invariant only holds after `set_dimensions`, which does reallocate to
exactly `d.x * d.y` cleared slots. -/
theorem new_handles_length_bug :
    (WorldMap.new (2, 2)).handles.length = 0 ∧
    (WorldMap.new (2, 2)).dimensions.1 * (WorldMap.new (2, 2)).dimensions.2 = 4 ∧
    (0 : ℕ) ≠ 4 ∧
    ∀ (m : WorldMapM) (d : ℕ × ℕ),
      (TileMap.set_dimensions m d).handles = List.replicate (d.1 * d.2) none ∧
      (TileMap.set_dimensions m d).dimensions = d :=
  ⟨rfl, rfl, by decide, fun m d => ⟨rfl, rfl⟩⟩

/-! ## `set_tile` (`src/map.rs:227-248`) -/

/-- Embedding of `TileMap::tile_coord_to_chunk_coord` (`src/map.rs:287-291`):
componentwise floored division by the chunk size. -/
def tile_coord_to_chunk_coord (W H : ℚ) (coord : ℚ × ℚ × ℚ) : ℤ × ℤ :=
  (⌊coord.1 / W⌋, ⌊coord.2.1 / H⌋)

/-- Modelled from the spec: `to_index` on a (possibly negative) chunk
coordinate, `index = y * mx + x`; a negative result, cast `as usize`, falls
outside the handle array, which `handle_at` below treats as the panic case. -/
def to_index_z (mx : ℕ) (c : ℤ × ℤ) : ℤ := c.2 * mx + c.1

/-- The `self.get_chunk_handle(chunk_index).unwrap()` lookup of
`set_tile`/`set_tiles`: `none` both when the index misses the handle array
(indexing panic) and when the slot is empty (`unwrap` panic). -/
def handle_at (m : WorldMapM) (i : ℤ) : Option ℕ :=
  if 0 ≤ i then (m.handles[i.toNat]?).join else none

/-- Modelled from the spec: `Dimensions2::max_y` (`dimensions.rs` is not in
`src/`), the largest valid chunk row `dimensions.y - 1`; it only feeds the
unused second component of `map_coord` in `set_tile` and `set_tiles`. -/
def max_y_q (m : WorldMapM) : ℚ := (m.dimensions.2 : ℚ) - 1

/-- Embedding of `TileMap::set_tile` (`src/map.rs:231-248`).  `v.to_coord3` on a 3-D
vector is the identity (modelled from the spec; `coord.rs` is missing).
The source works in `f32`; every arithmetic step at the inputs considered is
exact there, so `ℚ` models it faithfully.  Note the divisions are NOT
floored: `map_coord.x * WIDTH` cancels back to `coord.x`, and
`tile_y * HEIGHT` back to `coord.y`. -/
def TileMap.set_tile (W H : ℚ) (m : WorldMapM) (v : ℚ × ℚ × ℚ) (tile : Tile) :
    Option (Except ErrorKind WorldMapM) :=
  let coord := v
  let chunk_coord := tile_coord_to_chunk_coord W H coord
  let chunk_index := to_index_z m.dimensions.1 chunk_coord
  match handle_at m chunk_index with
  | none => none
  | some handle =>
    let tile_y := coord.2.1 / H
    let map_coord : ℚ × ℚ := (coord.1 / W, (m.dimensions.2 : ℚ) - (max_y_q m - tile_y))
    let x := coord.1 - map_coord.1 * W
    let y := H - 1 - (coord.2.1 - tile_y * H)
    let coord3 : ℚ × ℚ × ℚ := (x, y, coord.2.2)
    let setter : TileSetter := [(coord3, tile)]
    some (Except.ok (send_event m (MapEventM.Modified handle setter)))

lemma set_tile_eq (W H : ℚ) (m : WorldMapM) (v : ℚ × ℚ × ℚ) (tile : Tile) (h : ℕ)
    (hh : handle_at m (to_index_z m.dimensions.1 (tile_coord_to_chunk_coord W H v)) =
      some h) :
    TileMap.set_tile W H m v tile =
      some (Except.ok (send_event m (MapEventM.Modified h
        [((v.1 - (v.1 / W) * W, H - 1 - (v.2.1 - (v.2.1 / H) * H), v.2.2), tile)]))) := by
  simp only [TileMap.set_tile]
  rw [hh]

/-- A 2-by-2 chunk map with chunk handles 10..13 present in all four slots. -/
def demoMapFull : WorldMapM :=
  { dimensions := (2, 2)
    handles := [some 10, some 11, some 12, some 13]
    entities := []
    events := ⟨[], [], 0⟩ }

/-- The tile placed in the spec §8 scenario. -/
def demoTile : Tile :=
  { point := (6, 1)
    z_order := 0
    sprite_index := 0
    tint := Color.WHITE
    is_horizontally_flipped := false
    is_vertically_flipped := false }

/-- C1 (code bug): spec §8 scenario — map of 2x2 chunks, chunk size 4x4,
`set_tile` at tile coordinate (6, 1).  The owning chunk is (1, 0) (index 1,
handle 11) as claimed, but the emitted `Modified` setter holds local
coordinate (0, 3), not the claimed (2, 2): the divisions in `set_tile` are
not floored, so `local_x = 6 - (6/4)*4 = 0` and
`local_y = 4 - 1 - (1 - (1/4)*4) = 3` (each step exact in `f32`). -/
theorem set_tile_local_coord_bug :
    TileMap.set_tile 4 4 demoMapFull (6, 1, 0) demoTile =
      some (Except.ok (send_event demoMapFull
        (MapEventM.Modified 11 [(((0 : ℚ), (3 : ℚ), (0 : ℚ)), demoTile)]))) ∧
    (((0 : ℚ), (3 : ℚ)) ≠ ((2 : ℚ), (2 : ℚ))) := by
  constructor
  · rw [set_tile_eq 4 4 demoMapFull (6, 1, 0) demoTile 11 (by
      simp only [tile_coord_to_chunk_coord, to_index_z]
      norm_num
      decide)]
    norm_num
  · decide

/-- C10: `set_tile` performs no bounds check and never produces an error
value: whenever it returns normally the result is success, and an
out-of-range or missing owning chunk surfaces only as the indexing/`unwrap`
panic (`none`), never as `OutOfBounds`. -/
theorem set_tile_no_error_value (W H : ℚ) (m : WorldMapM) (v : ℚ × ℚ × ℚ) (tile : Tile) :
    (∀ r, TileMap.set_tile W H m v tile = some r → ∃ m2, r = Except.ok m2) ∧
    (handle_at m (to_index_z m.dimensions.1 (tile_coord_to_chunk_coord W H v)) = none →
      TileMap.set_tile W H m v tile = none) := by
  constructor
  · intro r hr
    simp only [TileMap.set_tile] at hr
    cases hh : handle_at m (to_index_z m.dimensions.1 (tile_coord_to_chunk_coord W H v)) with
    | none => rw [hh] at hr; exact absurd hr (by simp)
    | some handle =>
      rw [hh] at hr
      simp only [Option.some.injEq] at hr
      exact ⟨_, hr.symm⟩
  · intro hh
    simp only [TileMap.set_tile]
    rw [hh]

/-- Witness for C10: at the spec §8 scenario input the returned value is a
success, and on the all-empty map the same call panics (`none`). -/
theorem set_tile_no_error_value_witness :
    (∃ m2, (Except.ok (send_event demoMapFull
        (MapEventM.Modified 11 [(((0 : ℚ), (3 : ℚ), (0 : ℚ)), demoTile)]))
        : Except ErrorKind WorldMapM) = Except.ok m2) ∧
    TileMap.set_tile 4 4 demoMap22 (0, 0, 0) demoTile = none := by
  constructor
  · refine (set_tile_no_error_value 4 4 demoMapFull (6, 1, 0) demoTile).1 _ ?_
    rw [set_tile_eq 4 4 demoMapFull (6, 1, 0) demoTile 11 (by
      simp only [tile_coord_to_chunk_coord, to_index_z]
      norm_num
      decide)]
    norm_num
  · exact (set_tile_no_error_value 4 4 demoMap22 (0, 0, 0) demoTile).2 (by
      simp only [tile_coord_to_chunk_coord, to_index_z]
      norm_num
      decide)

/-! ## `translation_to_chunk_coord` (`src/map.rs:301-307`) -/

/-- Embedding of `TileMap::translation_to_chunk_coord` (`src/map.rs:302-307`): the
translation components are cast to `i32` (the inputs here are already
integers), divided with Rust's truncating integer division, and offset by
the chunk-space `center()` (a `Dimensions2` method outside `src/`, taken as
the `center` argument).  `TW`/`TH` are the tile pixel sizes `T::WIDTH` and
`T::HEIGHT`, `CW`/`CH` the chunk sizes `C::WIDTH` and `C::HEIGHT`; the
source divides BOTH axes by `C::HEIGHT` (the `CW` argument goes unused,
exactly as `C::WIDTH` does in the source). -/
def translation_to_chunk_coord (TW TH CW CH : ℤ) (center : ℤ × ℤ)
    (translation : ℤ × ℤ) : ℤ × ℤ :=
  (Int.tdiv translation.1 (TW * CH) + center.1,
   Int.tdiv translation.2 (TH * CH) + center.2)

/-- The claim's formula for the same conversion: each axis divided by the
tile pixel size times the chunk size along that SAME axis (this also matches
the forward placement in `map_system`, `src/map.rs:490-494`, which scales x
by `T::WIDTH * C::WIDTH`). -/
def translation_to_chunk_coord_claimed (TW TH CW CH : ℤ) (center : ℤ × ℤ)
    (translation : ℤ × ℤ) : ℤ × ℤ :=
  (Int.tdiv translation.1 (TW * CW) + center.1,
   Int.tdiv translation.2 (TH * CH) + center.2)

/-- C7 (code bug): with tile size 8x8 and a non-square chunk (width 2,
height 4), the translation (16, 0) lies in chunk column 16 / (8*2) = 1 by
the claimed per-axis formula, but the code divides the x axis by
`T::WIDTH * C::HEIGHT = 32` and answers column 0. -/
theorem translation_to_chunk_coord_axis_bug :
    translation_to_chunk_coord 8 8 2 4 (0, 0) (16, 0) = (0, 0) ∧
    translation_to_chunk_coord_claimed 8 8 2 4 (0, 0) (16, 0) = (1, 0) ∧
    translation_to_chunk_coord 8 8 2 4 (0, 0) (16, 0) ≠
      translation_to_chunk_coord_claimed 8 8 2 4 (0, 0) (16, 0) := by
  refine ⟨by decide, by decide, by decide⟩

/-! ## `set_tiles` (`src/map.rs:251-277`) -/

/-- Embedding of `set_tiles`' per-entry local placement (`src/map.rs:257-264`): unlike
`set_tile`, the x division IS floored, and the y formula uses the chunk
constant `X_MAX` together with the floored chunk row.  `X_MAX` is modelled
from the spec as a chunk constant passed in as `XMAX` (`chunk.rs` is not in
`src/`; spec §4.1 writes `HEIGHT - 1` here, the largest local index of the
axis). -/
def set_tiles_local (W H XMAX maxY : ℚ) (c : ℚ × ℚ × ℚ) : ℚ × ℚ × ℚ :=
  let chunk_coord := tile_coord_to_chunk_coord W H c
  let tile_y := c.2.1 / H
  let map_coord : ℚ × ℚ := ((⌊c.1 / W⌋ : ℚ), maxY - (maxY - tile_y))
  let x := c.1 - map_coord.1 * W
  let y := XMAX - (c.2.1 - (chunk_coord.2 : ℚ) * H)
  (x, y, c.2.2)

/-- The owning chunk handle an entry of `set_tiles` resolves
(`self.get_chunk_handle(chunk_index).unwrap()`, `src/map.rs:256`). -/
def set_tiles_owner (W H : ℚ) (m : WorldMapM) (c : ℚ × ℚ × ℚ) : Option ℕ :=
  handle_at m (to_index_z m.dimensions.1 (tile_coord_to_chunk_coord W H c))

/-- Insertion into the per-chunk grouping map (`tiles_map.get_mut` /
`insert`, `src/map.rs:265-271`): append to the handle's existing setter, or
start a new one.  The source's `HashMap` has no observable order; this
association list keeps first-insertion order, a deterministic refinement. -/
def group_insert {A : Type} (h : ℕ) (a : A) :
    List (ℕ × List A) → List (ℕ × List A)
  | [] => [(h, [a])]
  | g :: gs => if g.1 = h then (g.1, g.2 ++ [a]) :: gs else g :: group_insert h a gs

/-- The entry loop of `set_tiles` (`src/map.rs:253-272`): resolve each
entry's owning chunk handle (panic — `none` — when absent), compute its
local placement, and group the transformed entries by handle. -/
def set_tiles_go (W H XMAX : ℚ) (m : WorldMapM) :
    List ((ℚ × ℚ × ℚ) × Tile) → List (ℕ × TileSetter) →
      Option (List (ℕ × TileSetter))
  | [], acc => some acc
  | e :: rest, acc =>
    match set_tiles_owner W H m e.1 with
    | none => none
    | some h =>
      set_tiles_go W H XMAX m rest
        (group_insert h (set_tiles_local W H XMAX (max_y_q m) e.1, e.2) acc)

/-- Embedding of `TileMap::set_tiles` (`src/map.rs:251-277`): group the setter's entries
by owning chunk, then send one `Modified` event per group. -/
def TileMap.set_tiles (W H XMAX : ℚ) (m : WorldMapM) (setter : TileSetter) :
    Option WorldMapM :=
  match set_tiles_go W H XMAX m setter [] with
  | none => none
  | some groups =>
    some (groups.foldl (fun m2 g => send_event m2 (MapEventM.Modified g.1 g.2)) m)

/-- First-match association lookup over the grouping list. -/
def alookup {A : Type} (h : ℕ) : List (ℕ × A) → Option A
  | [] => none
  | g :: gs => if g.1 = h then some g.2 else alookup h gs

lemma alookup_nil {A : Type} (h : ℕ) : alookup h ([] : List (ℕ × A)) = none := rfl

lemma alookup_cons {A : Type} (h : ℕ) (g : ℕ × A) (gs : List (ℕ × A)) :
    alookup h (g :: gs) = if g.1 = h then some g.2 else alookup h gs := rfl

lemma alookup_group_insert {A : Type} (h h2 : ℕ) (a : A) (gs : List (ℕ × List A)) :
    alookup h (group_insert h2 a gs) =
      if h2 = h then some ((alookup h gs).getD [] ++ [a]) else alookup h gs := by
  induction gs with
  | nil =>
    by_cases he : h2 = h <;> simp [group_insert, alookup_cons, alookup_nil, he]
  | cons g gs ih =>
    simp only [group_insert]
    split_ifs with hg he <;> simp_all [alookup_cons]

lemma group_insert_keys_mem {A : Type} (x h : ℕ) (a : A) (gs : List (ℕ × List A)) :
    x ∈ (group_insert h a gs).map Prod.fst ↔ x ∈ gs.map Prod.fst ∨ x = h := by
  induction gs with
  | nil => simp [group_insert]
  | cons g gs ih =>
    by_cases hg : g.1 = h <;> simp [group_insert, hg, ih] <;> tauto

lemma group_insert_keys_nodup {A : Type} (h : ℕ) (a : A) (gs : List (ℕ × List A))
    (hnd : (gs.map Prod.fst).Nodup) :
    ((group_insert h a gs).map Prod.fst).Nodup := by
  induction gs with
  | nil => simp [group_insert]
  | cons g gs ih =>
    rw [List.map_cons, List.nodup_cons] at hnd
    by_cases hg : g.1 = h
    · rw [group_insert, if_pos hg, List.map_cons, List.nodup_cons]
      exact ⟨hnd.1, hnd.2⟩
    · rw [group_insert, if_neg hg, List.map_cons, List.nodup_cons]
      refine ⟨?_, ih hnd.2⟩
      rw [group_insert_keys_mem]
      rintro (hmem | heq)
      · exact hnd.1 hmem
      · exact hg heq

lemma alookup_mem {A : Type} (h : ℕ) (s : A) (gs : List (ℕ × A))
    (hnd : (gs.map Prod.fst).Nodup) :
    ((h, s) ∈ gs ↔ alookup h gs = some s) := by
  induction gs with
  | nil => simp [alookup]
  | cons g gs ih =>
    rw [List.map_cons, List.nodup_cons] at hnd
    by_cases hg : g.1 = h
    · rw [alookup, if_pos hg, List.mem_cons]
      constructor
      · rintro (he | hmem)
        · rw [← he]
        · exfalso
          apply hnd.1
          rw [hg]
          exact List.mem_map.mpr ⟨(h, s), hmem, rfl⟩
      · intro he
        left
        have : g = (g.1, g.2) := rfl
        rw [this, hg, Option.some.inj he]
    · rw [alookup, if_neg hg, List.mem_cons, ih hnd.2]
      constructor
      · rintro (he | hl)
        · exfalso
          apply hg
          rw [← he]
        · exact hl
      · intro hl
        right
        exact hl

lemma set_tiles_go_spec (W H XMAX : ℚ) (m : WorldMapM)
    (entries : List ((ℚ × ℚ × ℚ) × Tile)) :
    ∀ acc : List (ℕ × TileSetter),
      (∀ e ∈ entries, (set_tiles_owner W H m e.1).isSome) →
      ∃ groups, set_tiles_go W H XMAX m entries acc = some groups ∧
        ((acc.map Prod.fst).Nodup → (groups.map Prod.fst).Nodup) ∧
        (∀ x, x ∈ groups.map Prod.fst ↔
          x ∈ acc.map Prod.fst ∨
          some x ∈ entries.map (fun e => set_tiles_owner W H m e.1)) ∧
        (∀ h, alookup h groups =
          match alookup h acc, entries.filterMap (fun e =>
            if set_tiles_owner W H m e.1 = some h
            then some (set_tiles_local W H XMAX (max_y_q m) e.1, e.2) else none) with
          | none, [] => none
          | none, l => some l
          | some s, l => some (s ++ l)) := by
  induction entries with
  | nil =>
    intro acc hall
    refine ⟨acc, rfl, id, ?_, ?_⟩
    · intro x
      simp
    · intro h
      rw [List.filterMap_nil]
      cases alookup h acc <;> simp
  | cons e rest ih =>
    intro acc hall
    have ho := hall e (List.mem_cons_self e rest)
    cases hoe : set_tiles_owner W H m e.1 with
    | none =>
      rw [hoe] at ho
      exact absurd ho (by simp)
    | some h0 =>
      obtain ⟨groups, hgo, hnd, hmem, hlook⟩ :=
        ih (group_insert h0 (set_tiles_local W H XMAX (max_y_q m) e.1, e.2) acc)
          (fun e2 he2 => hall e2 (List.mem_cons_of_mem e he2))
      refine ⟨groups, ?_, ?_, ?_, ?_⟩
      · rw [set_tiles_go, hoe]
        exact hgo
      · intro hacc
        exact hnd (group_insert_keys_nodup h0 _ acc hacc)
      · intro x
        rw [hmem x, group_insert_keys_mem, List.map_cons, List.mem_cons, hoe]
        constructor
        · rintro ((ha | hx) | hr)
          · exact Or.inl ha
          · exact Or.inr (Or.inl (by rw [hx]))
          · exact Or.inr (Or.inr hr)
        · rintro (ha | (hx | hr))
          · exact Or.inl (Or.inl ha)
          · exact Or.inl (Or.inr (Option.some.inj hx.symm).symm)
          · exact Or.inr hr
      · intro h
        rw [hlook h, alookup_group_insert, List.filterMap_cons]
        by_cases hh : h0 = h
        · rw [if_pos hh]
          have hfe : (if set_tiles_owner W H m e.1 = some h
              then some (set_tiles_local W H XMAX (max_y_q m) e.1, e.2) else none) =
              some (set_tiles_local W H XMAX (max_y_q m) e.1, e.2) := by
            rw [hoe, hh, if_pos rfl]
          rw [hfe]
          cases ha : alookup h acc <;>
            cases hl : rest.filterMap (fun e2 =>
              if set_tiles_owner W H m e2.1 = some h
              then some (set_tiles_local W H XMAX (max_y_q m) e2.1, e2.2) else none) <;>
            simp [ha, hl]
        · rw [if_neg hh]
          have hfe : (if set_tiles_owner W H m e.1 = some h
              then some (set_tiles_local W H XMAX (max_y_q m) e.1, e.2) else none) =
              none := by
            rw [hoe, if_neg (fun hcon => hh (Option.some.inj hcon))]
          rw [hfe]
  
/-- C4: when every entry's owning chunk exists, `set_tiles` succeeds and
emits exactly one `Modified` event per distinct owning chunk — the emitted
groups have pairwise-distinct handles, their handles are exactly the owners
occurring in the setter, and each group's setter is exactly the subsequence
of (locally placed) entries owned by that chunk, in original relative
order. -/
theorem set_tiles_grouping (W H XMAX : ℚ) (m : WorldMapM) (setter : TileSetter)
    (hall : ∀ e ∈ setter, (set_tiles_owner W H m e.1).isSome) :
    ∃ groups, set_tiles_go W H XMAX m setter [] = some groups ∧
      TileMap.set_tiles W H XMAX m setter =
        some (groups.foldl (fun m2 g => send_event m2 (MapEventM.Modified g.1 g.2)) m) ∧
      (groups.map Prod.fst).Nodup ∧
      (∀ x, x ∈ groups.map Prod.fst ↔
        some x ∈ setter.map (fun e => set_tiles_owner W H m e.1)) ∧
      ∀ h s, (h, s) ∈ groups →
        s = setter.filterMap (fun e =>
          if set_tiles_owner W H m e.1 = some h
          then some (set_tiles_local W H XMAX (max_y_q m) e.1, e.2) else none) := by
  obtain ⟨groups, hgo, hnd, hmem, hlook⟩ := set_tiles_go_spec W H XMAX m setter [] hall
  have hnd2 := hnd (by simp)
  refine ⟨groups, hgo, ?_, hnd2, ?_, ?_⟩
  · rw [TileMap.set_tiles, hgo]
  · intro x
    rw [hmem x]
    simp
  · intro h s hmem2
    have hl := (alookup_mem h s groups hnd2).mp hmem2
    rw [hlook h, show alookup h ([] : List (ℕ × TileSetter)) = none from rfl] at hl
    revert hl
    cases hcf : setter.filterMap (fun e =>
        if set_tiles_owner W H m e.1 = some h
        then some (set_tiles_local W H XMAX (max_y_q m) e.1, e.2) else none) with
    | nil =>
      intro hl
      exact absurd hl (by simp)
    | cons a l2 =>
      intro hl
      exact (Option.some.inj hl).symm

/-- Three entries spanning two chunks of the populated 2-by-2 map: tile
coordinates (0,0) and (1,1) land in chunk (0,0) (handle 10), (6,1) in chunk
(1,0) (handle 11). -/
def demoSetter : TileSetter :=
  [(((0 : ℚ), (0 : ℚ), (0 : ℚ)), demoTile),
   (((6 : ℚ), (1 : ℚ), (0 : ℚ)), demoTile),
   (((1 : ℚ), (1 : ℚ), (0 : ℚ)), demoTile)]

/-- Witness for C4 at the concrete batch `demoSetter`. -/
theorem set_tiles_grouping_witness :
    (∀ e ∈ demoSetter, (set_tiles_owner 4 4 demoMapFull e.1).isSome) ∧
    (∃ groups, set_tiles_go 4 4 3 demoMapFull demoSetter [] = some groups ∧
      TileMap.set_tiles 4 4 3 demoMapFull demoSetter =
        some (groups.foldl (fun m2 g => send_event m2 (MapEventM.Modified g.1 g.2))
          demoMapFull) ∧
      (groups.map Prod.fst).Nodup ∧
      (∀ x, x ∈ groups.map Prod.fst ↔
        some x ∈ demoSetter.map (fun e => set_tiles_owner 4 4 demoMapFull e.1)) ∧
      ∀ h s, (h, s) ∈ groups →
        s = demoSetter.filterMap (fun e =>
          if set_tiles_owner 4 4 demoMapFull e.1 = some h
          then some (set_tiles_local 4 4 3 (max_y_q demoMapFull) e.1, e.2) else none)) := by
  have hall : ∀ e ∈ demoSetter, (set_tiles_owner 4 4 demoMapFull e.1).isSome := by
    intro e he
    simp only [demoSetter, List.mem_cons, List.not_mem_nil, or_false] at he
    rcases he with rfl | rfl | rfl <;>
      · simp only [set_tiles_owner, tile_coord_to_chunk_coord, to_index_z]
        norm_num
        decide
  exact ⟨hall, set_tiles_grouping 4 4 3 demoMapFull demoSetter hall⟩
